import Mathlib

set_option maxHeartbeats 1000000

/-!
Shallow embedding of the SMACT screening code, used to check the
natural-language specification against the source.

Embedded source files:
 - examples/mixed_ions_on_MP-v2.py : the batched counting driver, the
   per-combination oxidation-state enumeration, and the multiplicity-table
   key construction.
 - smact/properties.py : compound_electroneg (selector validation).
 - read_oxidation/smact_lattice.py : possible_elements,
   check_lattice_charges, possible_compositions.

The pauling_test predicate and the charge_neutrality_iter counter live in
the smact package, outside the embedded sources; the driver treats both as
black boxes (a boolean filter and a per-key multiplicity), so they appear
here as function parameters and every theorem quantifies over them.
Python floats carrying electronegativities and wall-clock times are
modelled as rationals; machine wall-clock values never influence control
flow except through the division by data_pointer, which is modelled
explicitly (ZeroDivisionError).
-/

namespace SMACT

/-- itertools.combinations: all n-element subsequences of a list, in the
lexicographic order of positions that itertools produces. -/
def combinations {α : Type} : ℕ → List α → List (List α)
  | 0, _ => [[]]
  | _ + 1, [] => []
  | n + 1, x :: xs => ((combinations n xs).map (fun c => x :: c)) ++ combinations (n + 1) xs

/-- itertools.combinations_with_replacement, in itertools order. -/
def combinationsWithReplacement {α : Type} : ℕ → List α → List (List α)
  | 0, _ => [[]]
  | _ + 1, [] => []
  | n + 1, x :: xs =>
    ((combinationsWithReplacement n (x :: xs)).map (fun c => x :: c)) ++
      combinationsWithReplacement (n + 1) xs
termination_by n l => (n, l.length)

/-- Cartesian product of a list of lists, outermost list slowest, matching
nested for-loops with the first list in the outermost loop. -/
def cartesianProduct {α : Type} : List (List α) → List (List α)
  | [] => [[]]
  | l :: ls => l.flatMap (fun x => (cartesianProduct ls).map (fun c => x :: c))

/-- Python sorted() on a list of integers (ascending, stable). -/
def pySorted (l : List Int) : List Int := List.insertionSort (· ≤ ·) l

/-- Element record as used by the driver: symbol, known oxidation states,
and the Pauling electronegativity (a float in the source, a rational
here). -/
structure Element where
  symbol : String
  oxidation_states : List Int
  pauling_eneg : ℚ
deriving DecidableEq, Repr

/-- The flattened (symbol, oxidation state, electronegativity) tuple list
built at the top of count_element_combination: one tuple per element per
known oxidation state, elements outermost. -/
def oxidation_states_list (element_combination : List Element) : List (String × Int × ℚ) :=
  element_combination.flatMap (fun element =>
    element.oxidation_states.map (fun oxidation_state =>
      (element.symbol, oxidation_state, element.pauling_eneg)))

/-- count_element_combination from mixed_ions_on_MP-v2.py.  The
pauling_test filter and the neutral-stoichiometries lookup table are
parameters (they are built outside the embedded file). -/
def count_element_combination
    (pauling_test : List String → List Int → List ℚ → Bool)
    (neutral_stoichiometries_lookup_table : List Int → ℕ)
    (element_combination : List Element) (n : ℕ) : ℕ :=
  (combinations n (oxidation_states_list element_combination)).foldl
    (fun count state_combination =>
      let symbols := state_combination.map (fun x => x.1)
      let oxidation_states := state_combination.map (fun x => x.2.1)
      let pauling_electronegativities := state_combination.map (fun x => x.2.2)
      if pauling_test symbols oxidation_states pauling_electronegativities then
        count + neutral_stoichiometries_lookup_table (pySorted oxidation_states)
      else count)
    0

/-- The set of oxidation states across all elements considered
(Python set(...), modelled as dedup of the concatenation). -/
def uniqueOxidationStates (element_list : List Element) : List Int :=
  (element_list.flatMap (fun element => element.oxidation_states)).dedup

/-- oxidation_state_combinations[n] after the sort-and-cast step: every
n-multiset of known oxidation states as a sorted tuple; these are the keys
of the neutral_stoichiometries lookup table for round n. -/
def oxidation_state_combinations (element_list : List Element) (n : ℕ) : List (List Int) :=
  (combinationsWithReplacement n (uniqueOxidationStates element_list)).map pySorted

/-- The sequence produced by combination_generator for round n: element
combinations of every size i from 2 to n, in order. -/
def elementCombinations (element_list : List Element) (n : ℕ) : List (List Element) :=
  (List.range' 2 (n - 1)).flatMap (fun i => combinations i element_list)

/-- combination_count as the driver computes it: the summed sizes of the
per-i combination lists for i from 2 to n. -/
def combination_count (element_list : List Element) (n : ℕ) : ℕ :=
  ((List.range' 2 (n - 1)).map (fun i => (combinations i element_list).length)).sum

/-- Mutable state of the counting while-loop: data_pointer, the running
count, and the data_pointer values at which progress lines were printed. -/
structure LoopState where
  data_pointer : ℕ
  count : ℕ
  reports : List ℕ
deriving DecidableEq, Repr

/-- One pass of the while-loop body (serial path): pull the next
iterations = min(batch_size, combination_count - data_pointer) items from
the generator, add their counts, advance data_pointer, then report.  The
report computes time_elapsed / data_pointer, which in Python raises
ZeroDivisionError exactly when the updated data_pointer is zero; the
wall-clock numerator does not affect control flow and is elided. -/
def loopStep (f : List Element → ℕ) (combs : List (List Element)) (batch_size : ℕ)
    (s : LoopState) : Except String LoopState :=
  let iterations := min batch_size (combs.length - s.data_pointer)
  let data_pointer := s.data_pointer + iterations
  if data_pointer = 0 then Except.error "ZeroDivisionError: float division by zero"
  else
    Except.ok
      { data_pointer := data_pointer
        count := s.count + (((combs.drop s.data_pointer).take iterations).map f).sum
        reports := s.reports ++ [data_pointer] }

/-- The while data_pointer < combination_count loop, run with explicit
fuel: none means the fuel ran out with the guard still true (the loop is
still running), some (ok s) means normal exit, some (error e) means the
run aborted with a Python exception. -/
def runLoop (f : List Element → ℕ) (combs : List (List Element)) (batch_size : ℕ) :
    ℕ → LoopState → Option (Except String LoopState)
  | 0, s => if s.data_pointer < combs.length then none else some (Except.ok s)
  | fuel + 1, s =>
    if s.data_pointer < combs.length then
      match loopStep f combs batch_size s with
      | Except.ok s2 => runLoop f combs batch_size fuel s2
      | Except.error e => some (Except.error e)
    else some (Except.ok s)

/-- One per-n counting round of the __main__ driver (serial path), with
the configured number of progress reports as a parameter (the source sets
count_progress_interval = 100). -/
def countingRound (pauling_test : List String → List Int → List ℚ → Bool)
    (table : List Int → ℕ) (element_list : List Element)
    (n interval fuel : ℕ) : Option (Except String LoopState) :=
  runLoop (fun element_combination =>
      count_element_combination pauling_test table element_combination n)
    (elementCombinations element_list n)
    (combination_count element_list n / interval)
    fuel
    { data_pointer := 0, count := 0, reports := [] }

/-- One pass of the while-loop body on the multiprocessing path: the
per-item results of the slice come back from imap_unordered in an
arbitrary order before being summed; sched gives, per batch index, the
order in which the pool delivers them. -/
def loopStepPar (sched : ℕ → List ℕ → List ℕ) (f : List Element → ℕ)
    (combs : List (List Element)) (batch_size : ℕ) (k : ℕ)
    (s : LoopState) : Except String LoopState :=
  let iterations := min batch_size (combs.length - s.data_pointer)
  let data_pointer := s.data_pointer + iterations
  if data_pointer = 0 then Except.error "ZeroDivisionError: float division by zero"
  else
    Except.ok
      { data_pointer := data_pointer
        count := s.count + (sched k (((combs.drop s.data_pointer).take iterations).map f)).sum
        reports := s.reports ++ [data_pointer] }

/-- The counting loop on the multiprocessing path, threading the batch
index into the delivery schedule. -/
def runLoopPar (sched : ℕ → List ℕ → List ℕ) (f : List Element → ℕ)
    (combs : List (List Element)) (batch_size : ℕ) :
    ℕ → ℕ → LoopState → Option (Except String LoopState)
  | 0, _, s => if s.data_pointer < combs.length then none else some (Except.ok s)
  | fuel + 1, k, s =>
    if s.data_pointer < combs.length then
      match loopStepPar sched f combs batch_size k s with
      | Except.ok s2 => runLoopPar sched f combs batch_size fuel (k + 1) s2
      | Except.error e => some (Except.error e)
    else some (Except.ok s)

/-- One per-n counting round with mp_use = True. -/
def countingRoundPar (sched : ℕ → List ℕ → List ℕ)
    (pauling_test : List String → List Int → List ℚ → Bool)
    (table : List Int → ℕ) (element_list : List Element)
    (n interval fuel : ℕ) : Option (Except String LoopState) :=
  runLoopPar sched
    (fun element_combination =>
      count_element_combination pauling_test table element_combination n)
    (elementCombinations element_list n)
    (combination_count element_list n / interval)
    fuel 0
    { data_pointer := 0, count := 0, reports := [] }

/-- Refinement reference following the spec wording: a single unbatched
pass over the full enumerated sequence, summing the per-combination
counts. -/
def specUnbatchedTotal (pauling_test : List String → List Int → List ℚ → Bool)
    (table : List Int → ℕ) (element_list : List Element) (n : ℕ) : ℕ :=
  ((elementCombinations element_list n).map (fun element_combination =>
    count_element_combination pauling_test table element_combination n)).sum

/-- percent_done as printed after each batch. -/
def percent_done (data_pointer combination_total : ℕ) : ℚ :=
  100 * (data_pointer : ℚ) / (combination_total : ℚ)

/-- time_remaining as printed after each batch, for a given elapsed
wall-clock value. -/
def time_remaining (combination_total : ℕ) (time_elapsed : ℚ) (data_pointer : ℕ) : ℚ :=
  (combination_total : ℚ) * (time_elapsed / (data_pointer : ℚ)) - time_elapsed

/-- compound_electroneg from smact/properties.py.  The element data
lookups (get_mulliken, get_pauling, both from smact.data) and the
geometric-mean aggregation are abstracted as parameters; the embedded
fragment is the source-selection control flow, which is what the claim is
about. -/
def compound_electroneg (get_mulliken get_pauling : String → ℚ)
    (aggregate : List ℚ → List ℚ → ℚ)
    (elementlist : List String) (stoichslist : List ℚ)
    (source : String) : Except String ℚ :=
  if source = "Mulliken" then
    Except.ok (aggregate (elementlist.map get_mulliken) stoichslist)
  else if source = "Pauling" then
    Except.ok (aggregate (elementlist.map (fun el => (286 / 100 : ℚ) * get_pauling el)) stoichslist)
  else
    Except.error ("Electronegativity type " ++ source ++ " is not recognised")

/-- Lattice from read_oxidation/smact_lattice.py. -/
structure Lattice where
  sites : List String
  site_ratios : List Int
  site_oxidations : List (List Int)
deriving Repr

/-- possible_elements: the elements dictionary is modelled as its key list
plus a value function; an element is appended once per matching entry of
the oxidations list, in the nested-loop order of the source. -/
def possible_elements (elemKeys : List String) (elemVal : String → Int)
    (oxidations : List Int) : List String :=
  elemKeys.flatMap (fun element =>
    (oxidations.filter (fun ox => elemVal element == ox)).map (fun _ => element))

/-- check_lattice_charges: append the composition when the sub-lattice
charges sum to zero (the return sits outside the if, so the accumulator is
always returned). -/
def check_lattice_charges (charges : List Int) (site_elements : List (List String))
    (sites : List String) : List (List String) :=
  if charges.sum = 0 then site_elements ++ [sites] else site_elements

/-- The atom array built by the initial while-loop of possible_compositions:
for i from 0 to len(sites) - 1 it appends the candidate elements for site i,
where the source indexes crystal.site_oxidations[i] and therefore raises
IndexError at the first i not covered by site_oxidations. -/
def atoms_for (crystal : Lattice) (elemKeys : List String) (elemVal : String → Int) :
    Except String (List (List String)) :=
  (List.range crystal.sites.length).foldlM (fun atom i =>
    if i < crystal.site_oxidations.length then
      pure (atom ++ [possible_elements elemKeys elemVal (crystal.site_oxidations.getD i [])])
    else Except.error "IndexError: list index out of range") []

/-- The value atoms_for produces when site_oxidations covers every site: per
site, the candidate elements for that site. -/
def site_candidate_lists (crystal : Lattice) (elemKeys : List String)
    (elemVal : String → Int) : List (List String) :=
  (List.range crystal.sites.length).map (fun i =>
    possible_elements elemKeys elemVal (crystal.site_oxidations.getD i []))

/-- The site_5 block of possible_compositions: iterating atom[4] evaluates
the undefined name crystal_site_ratios, so any iteration raises NameError;
an empty atom[4] skips the loop body. -/
def pc_level5 (atom : List (List String)) (site_elements : List (List String)) :
    Except String (List (List String)) :=
  if 5 ≤ atom.length then
    if (atom.getD 4 []).isEmpty then pure site_elements
    else Except.error "NameError: global name crystal_site_ratios is not defined"
  else pure site_elements

/-- The site_4 loop of possible_compositions; its body first evaluates
crystal.site_ratios[3], which raises IndexError when site_ratios has fewer
than 4 entries. -/
def pc_level4 (elemVal : String → Int) (r : List Int) (atom : List (List String))
    (c0 c1 c2 : Int) (s1 s2 s3 : String) (site_elements : List (List String)) :
    Except String (List (List String)) :=
  if 4 ≤ atom.length then
    (atom.getD 3 []).foldlM (fun site_elements s4 =>
      if 3 < r.length then
        let c3 : Int := elemVal s4 * r.getD 3 0
        let site_elements :=
          if atom.length = 4 then
            check_lattice_charges [c0, c1, c2, c3] site_elements [s1, s2, s3, s4]
          else site_elements
        pc_level5 atom site_elements
      else Except.error "IndexError: list index out of range") site_elements
  else pure site_elements

/-- The site_3 loop of possible_compositions; its body first evaluates
crystal.site_ratios[2], which raises IndexError when site_ratios has fewer
than 3 entries. -/
def pc_level3 (elemVal : String → Int) (r : List Int) (atom : List (List String))
    (c0 c1 : Int) (s1 s2 : String) (site_elements : List (List String)) :
    Except String (List (List String)) :=
  if 3 ≤ atom.length then
    (atom.getD 2 []).foldlM (fun site_elements s3 =>
      if 2 < r.length then
        let c2 : Int := elemVal s3 * r.getD 2 0
        let site_elements :=
          if atom.length = 3 then
            check_lattice_charges [c0, c1, c2] site_elements [s1, s2, s3]
          else site_elements
        pc_level4 elemVal r atom c0 c1 c2 s1 s2 s3 site_elements
      else Except.error "IndexError: list index out of range") site_elements
  else pure site_elements

/-- The site_2 loop of possible_compositions; its body first evaluates
crystal.site_ratios[1], which raises IndexError when site_ratios has fewer
than 2 entries. -/
def pc_level2 (elemVal : String → Int) (r : List Int) (atom : List (List String))
    (c0 : Int) (s1 : String) (site_elements : List (List String)) :
    Except String (List (List String)) :=
  if 2 ≤ atom.length then
    (atom.getD 1 []).foldlM (fun site_elements s2 =>
      if 1 < r.length then
        let c1 : Int := elemVal s2 * r.getD 1 0
        let site_elements :=
          if atom.length = 2 then
            check_lattice_charges [c0, c1] site_elements [s1, s2]
          else site_elements
        pc_level3 elemVal r atom c0 c1 s1 s2 site_elements
      else Except.error "IndexError: list index out of range") site_elements
  else pure site_elements

/-- possible_compositions from read_oxidation/smact_lattice.py: first the
atom array is built (propagating the IndexError of a site_oxidations list
shorter than sites), then the outer site_1 loop runs over atom[0] (an empty
atom array raises IndexError in the source, and the loop body evaluates
crystal.site_ratios[0], which raises IndexError when site_ratios is empty),
with the nested per-site loops split out level by level above. -/
def possible_compositions (crystal : Lattice) (elemKeys : List String)
    (elemVal : String → Int) : Except String (List (List String)) :=
  match atoms_for crystal elemKeys elemVal with
  | Except.error e => Except.error e
  | Except.ok atom =>
    let r := crystal.site_ratios
    if atom.length = 0 then Except.error "IndexError: list index out of range"
    else
      (atom.getD 0 []).foldlM (fun site_elements s1 =>
        if 0 < r.length then
          let c0 : Int := elemVal s1 * r.getD 0 0
          let site_elements :=
            if atom.length = 1 then check_lattice_charges [c0] site_elements [s1]
            else site_elements
          pc_level2 elemVal r atom c0 s1 site_elements
        else Except.error "IndexError: list index out of range") []

/-- Weighted charge of a composition, one entry per site in site order:
the sum over sites of (element oxidation state times site ratio), indexed
from i. -/
def composition_charge (elemVal : String → Int) (ratios : List Int) :
    ℕ → List String → Int
  | _, [] => 0
  | i, site :: rest =>
    elemVal site * ratios.getD i 0 + composition_charge elemVal ratios (i + 1) rest

/-! Concrete data used by witnesses and counterexamples. -/

/-- Hydrogen-like test element: states +1 and -1 (integer-valued
electronegativity so that concrete runs reduce in the kernel). -/
def elemH : Element := { symbol := "H", oxidation_states := [1, -1], pauling_eneg := 2 }

/-- Oxygen-like test element: state -2. -/
def elemO : Element := { symbol := "O", oxidation_states := [-2], pauling_eneg := 3 }

/-- A filter accepting every assignment, for concrete runs. -/
def ptAll : List String → List Int → List ℚ → Bool := fun _ _ _ => true

/-- A multiplicity table assigning 1 to every key, for concrete runs. -/
def tabOne : List Int → ℕ := fun _ => 1

/-- A delivery schedule returning each batch in reverse order. -/
def schedRev : ℕ → ℕ → ℕ → List ℕ → List ℕ := fun _ _ _ l => l.reverse

/-- One-site crystal used for the C10 counterexample. -/
def crystalOne : Lattice :=
  { sites := ["s1"], site_ratios := [1], site_oxidations := [[1]] }

/-- Two-site crystal used for witnesses. -/
def crystalTwo : Lattice :=
  { sites := ["cation", "anion"], site_ratios := [1, 1], site_oxidations := [[1], [-1]] }

/-- Two-site crystal whose site_oxidations list covers only one site, so the
atom-building loop of the source raises IndexError. -/
def crystalOxShort : Lattice :=
  { sites := ["a", "b"], site_ratios := [1, 1], site_oxidations := [[1]] }

/-- Two-site crystal whose site_ratios list covers only one site, so the
site_2 loop body of the source raises IndexError at site_ratios[1]. -/
def crystalRatioShort : Lattice :=
  { sites := ["a", "b"], site_ratios := [1], site_oxidations := [[1], [1]] }

/-- Five-site crystal reaching the buggy site_5 branch. -/
def crystalFive : Lattice :=
  { sites := ["s1", "s2", "s3", "s4", "s5"]
    site_ratios := [1, 1, 1, 1, 1]
    site_oxidations := [[1], [1], [1], [1], [1]] }

/-- Oxidation map sending every element to +1. -/
def valOne : String → Int := fun _ => 1

/-- Oxidation map sending every element to 0. -/
def valZero : String → Int := fun _ => 0

/-- Oxidation map for the NaCl-like witness. -/
def valNaCl : String → Int := fun s => if s = "Na" then 1 else -1

end SMACT

namespace SMACT

/-! Combinatorial lemmas about the itertools embeddings. -/

theorem combinations_length {α : Type} : ∀ {n : ℕ} {l c : List α},
    c ∈ combinations n l → c.length = n := by
  intro n l
  induction l generalizing n with
  | nil =>
    intro c hc
    match n with
    | 0 => simp [combinations] at hc; simp [hc]
    | n + 1 => simp [combinations] at hc
  | cons x xs ih =>
    intro c hc
    match n with
    | 0 => simp [combinations] at hc; simp [hc]
    | n + 1 =>
      simp only [combinations, List.mem_append, List.mem_map] at hc
      rcases hc with ⟨c2, hc2, rfl⟩ | hc
      · simp [ih hc2]
      · exact ih hc

theorem combinations_sublist {α : Type} : ∀ {n : ℕ} {l c : List α},
    c ∈ combinations n l → c.Sublist l := by
  intro n l
  induction l generalizing n with
  | nil =>
    intro c hc
    match n with
    | 0 => simp [combinations] at hc; simp [hc]
    | n + 1 => simp [combinations] at hc
  | cons x xs ih =>
    intro c hc
    match n with
    | 0 =>
      simp [combinations] at hc
      simp [hc]
    | n + 1 =>
      simp only [combinations, List.mem_append, List.mem_map] at hc
      rcases hc with ⟨c2, hc2, rfl⟩ | hc
      · exact List.Sublist.cons₂ x (ih hc2)
      · exact List.Sublist.cons x (ih hc)

theorem cwr_mem_cons {α : Type} (x : α) {xs : List α} :
    ∀ {n : ℕ} {c : List α}, c ∈ combinationsWithReplacement n xs →
      c ∈ combinationsWithReplacement n (x :: xs) := by
  intro n c hc
  match n with
  | 0 =>
    simp [combinationsWithReplacement] at hc
    simp [combinationsWithReplacement, hc]
  | n + 1 =>
    rw [combinationsWithReplacement]
    exact List.mem_append_right _ hc

theorem cwr_replicate_append {α : Type} (x : α) {xs : List α} :
    ∀ (k : ℕ) {n : ℕ} {c : List α},
      c ∈ combinationsWithReplacement n (x :: xs) →
      List.replicate k x ++ c ∈ combinationsWithReplacement (k + n) (x :: xs) := by
  intro k
  induction k with
  | zero => intro n c hc; simpa using hc
  | succ k ih =>
    intro n c hc
    have h2 := ih hc
    have harith : k + 1 + n = (k + n) + 1 := by omega
    rw [harith, List.replicate_succ, List.cons_append, combinationsWithReplacement]
    exact List.mem_append_left _ (List.mem_map.mpr ⟨List.replicate k x ++ c, h2, rfl⟩)

theorem filter_eq_replicate_count {α : Type} [DecidableEq α] (x : α) :
    ∀ (l : List α), l.filter (fun y => y == x) = List.replicate (l.count x) x := by
  intro l
  induction l with
  | nil => simp
  | cons a t ih =>
    by_cases h : a = x
    · subst h
      simp [List.filter_cons, List.count_cons, ih, List.replicate_succ]
    · simp [List.filter_cons, List.count_cons, h, ih]

theorem cwr_complete {α : Type} [DecidableEq α] :
    ∀ (u l : List α), (∀ y ∈ l, y ∈ u) →
      ∃ c ∈ combinationsWithReplacement l.length u, c.Perm l := by
  intro u
  induction u with
  | nil =>
    intro l h
    match l with
    | [] => exact ⟨[], by simp [combinationsWithReplacement], List.Perm.refl []⟩
    | a :: t => exact absurd (h a (by simp)) (by simp)
  | cons x xs ih =>
    intro l h
    have hsplit : (l.filter (fun y => y == x) ++ l.filter (fun y => !(y == x))).Perm l :=
      List.filter_append_perm _ l
    have hrep : l.filter (fun y => y == x) = List.replicate (l.count x) x :=
      filter_eq_replicate_count x l
    have hl2mem : ∀ y ∈ l.filter (fun y => !(y == x)), y ∈ xs := by
      intro y hy
      rw [List.mem_filter] at hy
      have hyx : y ≠ x := by simpa using hy.2
      have hmem := h y hy.1
      simp only [List.mem_cons] at hmem
      tauto
    obtain ⟨c2, hc2mem, hc2perm⟩ := ih (l.filter (fun y => !(y == x))) hl2mem
    refine ⟨List.replicate (l.count x) x ++ c2, ?_, ?_⟩
    · have hmem := cwr_replicate_append x (l.count x) (cwr_mem_cons x hc2mem)
      have hlen : l.count x + (l.filter (fun y => !(y == x))).length = l.length := by
        have hlen2 := hsplit.length_eq
        simp only [List.length_append, hrep, List.length_replicate] at hlen2
        omega
      rwa [hlen] at hmem
    · refine (List.Perm.append_left _ hc2perm).trans ?_
      rw [← hrep]
      exact hsplit

theorem pySorted_perm (l : List Int) : (pySorted l).Perm l := List.perm_insertionSort _ l

theorem pySorted_sorted (l : List Int) : List.Sorted (· ≤ ·) (pySorted l) :=
  List.sorted_insertionSort _ l

theorem pySorted_eq_of_perm {l l2 : List Int} (h : l.Perm l2) : pySorted l = pySorted l2 :=
  List.eq_of_perm_of_sorted ((pySorted_perm l).trans (h.trans (pySorted_perm l2).symm))
    (pySorted_sorted l) (pySorted_sorted l2)

/-! Lemmas about the per-combination counting function. -/

theorem foldl_if_add {α : Type} (p : α → Bool) (v : α → ℕ) :
    ∀ (l : List α) (a : ℕ),
      l.foldl (fun c x => if p x then c + v x else c) a
        = a + ((l.filter p).map v).sum := by
  intro l
  induction l with
  | nil => intro a; simp
  | cons y t ih =>
    intro a
    by_cases h : p y
    · simp [List.foldl_cons, List.filter_cons, h, ih, Nat.add_assoc]
    · simp [List.foldl_cons, List.filter_cons, h, ih]

theorem count_element_combination_eq
    (pt : List String → List Int → List ℚ → Bool) (table : List Int → ℕ)
    (comb : List Element) (n : ℕ) :
    count_element_combination pt table comb n =
      (((combinations n (oxidation_states_list comb)).filter (fun sc =>
          pt (sc.map (fun x => x.1)) (sc.map (fun x => x.2.1)) (sc.map (fun x => x.2.2)))).map
        (fun sc => table (pySorted (sc.map (fun x => x.2.1))))).sum := by
  have h := foldl_if_add
    (fun sc : List (String × Int × ℚ) =>
      pt (sc.map (fun x => x.1)) (sc.map (fun x => x.2.1)) (sc.map (fun x => x.2.2)))
    (fun sc : List (String × Int × ℚ) => table (pySorted (sc.map (fun x => x.2.1))))
    (combinations n (oxidation_states_list comb)) 0
  simpa [count_element_combination] using h

theorem combination_count_eq_length (u : List Element) (n : ℕ) :
    combination_count u n = (elementCombinations u n).length := by
  unfold combination_count elementCombinations
  induction List.range' 2 (n - 1) with
  | nil => simp
  | cons i t ih => simp [ih]

/-! Invariants of the counting while-loop. -/

theorem loopStep_ok {f : List Element → ℕ} {combs : List (List Element)}
    {batch_size : ℕ} {s s2 : LoopState}
    (h : loopStep f combs batch_size s = Except.ok s2) :
    s2.data_pointer = s.data_pointer + min batch_size (combs.length - s.data_pointer)
      ∧ s2.count = s.count
          + (((combs.drop s.data_pointer).take
              (min batch_size (combs.length - s.data_pointer))).map f).sum
      ∧ s2.reports = s.reports ++ [s2.data_pointer]
      ∧ 1 ≤ s2.data_pointer := by
  simp only [loopStep] at h
  split at h
  · exact absurd h (by simp)
  · rename_i hz
    rw [Except.ok.injEq] at h
    subst h
    refine ⟨rfl, rfl, rfl, ?_⟩
    show 1 ≤ s.data_pointer + min batch_size (combs.length - s.data_pointer)
    omega

theorem runLoop_count {f : List Element → ℕ} {combs : List (List Element)} {batch_size : ℕ} :
    ∀ {fuel : ℕ} {s s2 : LoopState},
      runLoop f combs batch_size fuel s = some (Except.ok s2) →
      s2.count = s.count + ((combs.drop s.data_pointer).map f).sum := by
  intro fuel
  induction fuel with
  | zero =>
    intro s s2 h
    rw [runLoop] at h
    split at h
    · exact absurd h (by simp)
    · rename_i hlt
      have hs : s2 = s := by simpa using h.symm
      subst hs
      rw [List.drop_eq_nil_of_le (by omega)]
      simp
  | succ fuel ih =>
    intro s s2 h
    rw [runLoop] at h
    split at h
    · rename_i hlt
      cases hstep : loopStep f combs batch_size s with
      | error e => rw [hstep] at h; exact absurd h (by simp)
      | ok s1 =>
        rw [hstep] at h
        obtain ⟨hdp, hcount, _, _⟩ := loopStep_ok hstep
        have h2 := ih h
        rw [h2, hcount, hdp]
        have hsum : ((combs.drop s.data_pointer).map f).sum
            = (((combs.drop s.data_pointer).take
                (min batch_size (combs.length - s.data_pointer))).map f).sum
              + ((combs.drop
                  (s.data_pointer + min batch_size (combs.length - s.data_pointer))).map f).sum := by
          rw [← List.drop_drop, ← List.sum_append, ← List.map_append, List.take_append_drop]
        omega
    · rename_i hlt
      have hs : s2 = s := by simpa using h.symm
      subst hs
      rw [List.drop_eq_nil_of_le (by omega)]
      simp

theorem runLoop_ptr {f : List Element → ℕ} {combs : List (List Element)} {batch_size : ℕ} :
    ∀ {fuel : ℕ} {s s2 : LoopState}, s.data_pointer ≤ combs.length →
      runLoop f combs batch_size fuel s = some (Except.ok s2) →
      s2.data_pointer = combs.length := by
  intro fuel
  induction fuel with
  | zero =>
    intro s s2 hle h
    rw [runLoop] at h
    split at h
    · exact absurd h (by simp)
    · rename_i hlt
      have hs : s2 = s := by simpa using h.symm
      subst hs
      omega
  | succ fuel ih =>
    intro s s2 hle h
    rw [runLoop] at h
    split at h
    · rename_i hlt
      cases hstep : loopStep f combs batch_size s with
      | error e => rw [hstep] at h; exact absurd h (by simp)
      | ok s1 =>
        rw [hstep] at h
        obtain ⟨hdp, _, _, _⟩ := loopStep_ok hstep
        exact ih (by omega) h
    · rename_i hlt
      have hs : s2 = s := by simpa using h.symm
      subst hs
      omega

theorem runLoop_reports {f : List Element → ℕ} {combs : List (List Element)} {batch_size : ℕ} :
    ∀ {fuel : ℕ} {s s2 : LoopState}, s.data_pointer ≤ combs.length →
      runLoop f combs batch_size fuel s = some (Except.ok s2) →
      ∃ t, s2.reports = s.reports ++ t
        ∧ List.Chain' (· ≤ ·) (s.data_pointer :: t)
        ∧ (∀ p ∈ t, 1 ≤ p ∧ p ≤ combs.length)
        ∧ (s.data_pointer :: t).getLast? = some s2.data_pointer := by
  intro fuel
  induction fuel with
  | zero =>
    intro s s2 hle h
    rw [runLoop] at h
    split at h
    · exact absurd h (by simp)
    · have hs : s2 = s := by simpa using h.symm
      subst hs
      exact ⟨[], by simp, by simp, by simp, by simp⟩
  | succ fuel ih =>
    intro s s2 hle h
    rw [runLoop] at h
    split at h
    · rename_i hlt
      cases hstep : loopStep f combs batch_size s with
      | error e => rw [hstep] at h; exact absurd h (by simp)
      | ok s1 =>
        rw [hstep] at h
        obtain ⟨hdp, _, hrep, hpos⟩ := loopStep_ok hstep
        have hle1 : s1.data_pointer ≤ combs.length := by omega
        obtain ⟨t1, hrep1, hchain1, hbound1, hlast1⟩ := ih hle1 h
        refine ⟨s1.data_pointer :: t1, ?_, ?_, ?_, ?_⟩
        · rw [hrep1, hrep]
          simp
        · rw [List.chain'_cons]
          exact ⟨by omega, hchain1⟩
        · intro p hp
          rcases List.mem_cons.mp hp with rfl | hp
          · exact ⟨hpos, hle1⟩
          · exact hbound1 p hp
        · rw [List.getLast?_cons_cons]
          exact hlast1
    · have hs : s2 = s := by simpa using h.symm
      subst hs
      exact ⟨[], by simp, by simp, by simp, by simp⟩

theorem runLoop_terminates {f : List Element → ℕ} {combs : List (List Element)}
    {batch_size : ℕ} (hbs : 1 ≤ batch_size) :
    ∀ (fuel : ℕ) (s : LoopState), combs.length - s.data_pointer ≤ fuel →
      ∃ s2, runLoop f combs batch_size fuel s = some (Except.ok s2) := by
  intro fuel
  induction fuel with
  | zero =>
    intro s hle
    refine ⟨s, ?_⟩
    have hlt : ¬ s.data_pointer < combs.length := by omega
    rw [runLoop, if_neg hlt]
  | succ fuel ih =>
    intro s hle
    by_cases hlt : s.data_pointer < combs.length
    · have hz : ¬ (s.data_pointer + min batch_size (combs.length - s.data_pointer) = 0) := by
        omega
      have hstep : loopStep f combs batch_size s = Except.ok
          { data_pointer := s.data_pointer + min batch_size (combs.length - s.data_pointer)
            count := s.count + (((combs.drop s.data_pointer).take
                (min batch_size (combs.length - s.data_pointer))).map f).sum
            reports := s.reports
              ++ [s.data_pointer + min batch_size (combs.length - s.data_pointer)] } := by
        simp only [loopStep]
        rw [if_neg hz]
      obtain ⟨s2, hs2⟩ := ih
        { data_pointer := s.data_pointer + min batch_size (combs.length - s.data_pointer)
          count := s.count + (((combs.drop s.data_pointer).take
              (min batch_size (combs.length - s.data_pointer))).map f).sum
          reports := s.reports
            ++ [s.data_pointer + min batch_size (combs.length - s.data_pointer)] }
        (show combs.length - (s.data_pointer
            + min batch_size (combs.length - s.data_pointer)) ≤ fuel by omega)
      refine ⟨s2, ?_⟩
      rw [runLoop, if_pos hlt, hstep]
      exact hs2
    · refine ⟨s, ?_⟩
      rw [runLoop, if_neg hlt]

theorem runLoop_stuck {f : List Element → ℕ} {combs : List (List Element)}
    (hpos : 0 < combs.length) (c0 : ℕ) (r0 : List ℕ) (fuel : ℕ) :
    runLoop f combs 0 (fuel + 1) { data_pointer := 0, count := c0, reports := r0 }
      = some (Except.error "ZeroDivisionError: float division by zero") := by
  have hstep : loopStep f combs 0 { data_pointer := 0, count := c0, reports := r0 }
      = Except.error "ZeroDivisionError: float division by zero" := by
    simp [loopStep]
  rw [runLoop, if_pos hpos, hstep]

theorem loopStepPar_eq {sched : ℕ → List ℕ → List ℕ}
    (hs : ∀ k l, (sched k l).Perm l) (f : List Element → ℕ)
    (combs : List (List Element)) (batch_size k : ℕ) (s : LoopState) :
    loopStepPar sched f combs batch_size k s = loopStep f combs batch_size s := by
  have hsum := (hs k (((combs.drop s.data_pointer).take
      (min batch_size (combs.length - s.data_pointer))).map f)).sum_eq
  simp only [loopStepPar, loopStep, hsum]

theorem runLoopPar_eq_runLoop {sched : ℕ → List ℕ → List ℕ}
    (hs : ∀ k l, (sched k l).Perm l) {f : List Element → ℕ}
    {combs : List (List Element)} {batch_size : ℕ} :
    ∀ (fuel k : ℕ) (s : LoopState),
      runLoopPar sched f combs batch_size fuel k s = runLoop f combs batch_size fuel s := by
  intro fuel
  induction fuel with
  | zero => intro k s; rfl
  | succ fuel ih =>
    intro k s
    by_cases hlt : s.data_pointer < combs.length
    · rw [runLoop, runLoopPar, if_pos hlt, if_pos hlt, loopStepPar_eq hs]
      cases loopStep f combs batch_size s with
      | ok s1 => exact ih (k + 1) s1
      | error e => rfl
    · rw [runLoop, runLoopPar, if_neg hlt, if_neg hlt]

end SMACT

namespace SMACT

theorem foldlM_pure_eq {β γ : Type} (g : β → γ → β) :
    ∀ (l : List γ) (init : β),
      List.foldlM (m := Except String) (fun b a => pure (g b a)) init l
        = pure (l.foldl g init) := by
  intro l
  induction l with
  | nil => intro init; rfl
  | cons a t ih => intro init; simp [List.foldlM_cons, ih]

theorem check_lattice_charges_eq (charges : List Int) (se : List (List String))
    (sites : List String) :
    check_lattice_charges charges se sites
      = se ++ (if charges.sum = 0 then [sites] else []) := by
  unfold check_lattice_charges
  split <;> simp

theorem foldl_acc_append {γ β : Type} (g : γ → List β) :
    ∀ (l : List γ) (init : List β),
      l.foldl (fun acc x => acc ++ g x) init = init ++ l.flatMap g := by
  intro l
  induction l with
  | nil => intro init; simp
  | cons a t ih => intro init; simp [List.foldl_cons, ih]

theorem filter_flatMap {γ β : Type} (p : β → Bool) (g : γ → List β) :
    ∀ (l : List γ), (l.flatMap g).filter p = l.flatMap (fun x => (g x).filter p) := by
  intro l
  induction l with
  | nil => simp
  | cons a t ih => simp [List.flatMap_cons, List.filter_append, ih]

theorem atoms_for_foldlM (keys : List String) (val : String → Int)
    (oxs : List (List Int)) :
    ∀ (n : ℕ) (acc : List (List String)),
      (List.range n).foldlM (fun atom i =>
        if i < oxs.length then
          pure (atom ++ [possible_elements keys val (oxs.getD i [])])
        else (Except.error "IndexError: list index out of range"
          : Except String (List (List String)))) acc
      = if n ≤ oxs.length then
          Except.ok (acc ++ (List.range n).map (fun i =>
            possible_elements keys val (oxs.getD i [])))
        else Except.error "IndexError: list index out of range" := by
  intro n
  induction n with
  | zero =>
    intro acc
    simp
    rfl
  | succ n ih =>
    intro acc
    rw [List.range_succ, List.foldlM_append, ih]
    by_cases h2 : n < oxs.length
    · rw [if_pos (by omega), if_pos (by omega)]
      simp [h2, List.range_succ]
    · by_cases h : n ≤ oxs.length
      · rw [if_pos h, if_neg (by omega)]
        simp [h2]
        rfl
      · rw [if_neg h, if_neg (by omega)]
        rfl

theorem atoms_for_ok (crystal : Lattice) (keys : List String) (val : String → Int)
    (hox : crystal.sites.length ≤ crystal.site_oxidations.length) :
    atoms_for crystal keys val = Except.ok (site_candidate_lists crystal keys val) := by
  simp only [atoms_for, atoms_for_foldlM, if_pos hox, site_candidate_lists,
    List.nil_append]

theorem atoms_for_error (crystal : Lattice) (keys : List String) (val : String → Int)
    (hox : crystal.site_oxidations.length < crystal.sites.length) :
    atoms_for crystal keys val = Except.error "IndexError: list index out of range" := by
  have hno : ¬ crystal.sites.length ≤ crystal.site_oxidations.length := by omega
  simp only [atoms_for, atoms_for_foldlM, if_neg hno]

theorem possible_compositions_one (crystal : Lattice) (keys : List String)
    (val : String → Int) (a0 : List String)
    (hatom : atoms_for crystal keys val = Except.ok [a0])
    (hr : 1 ≤ crystal.site_ratios.length) :
    possible_compositions crystal keys val
      = Except.ok ((cartesianProduct [a0]).filter
          (fun comp => composition_charge val crystal.site_ratios 0 comp == 0)) := by
  have h0 : 0 < crystal.site_ratios.length := hr
  simp only [possible_compositions, hatom, pc_level2, h0, if_true]
  norm_num
  rw [foldlM_pure_eq]
  rw [show (pure : List (List String) → Except String (List (List String)))
      = Except.ok from rfl]
  congr 1
  simp only [check_lattice_charges_eq]
  rw [foldl_acc_append]
  simp [cartesianProduct, filter_flatMap, composition_charge, List.filter_cons]

end SMACT

namespace SMACT

theorem possible_compositions_two (crystal : Lattice) (keys : List String)
    (val : String → Int) (a0 a1 : List String)
    (hatom : atoms_for crystal keys val = Except.ok [a0, a1])
    (hr : 2 ≤ crystal.site_ratios.length) :
    possible_compositions crystal keys val
      = Except.ok ((cartesianProduct [a0, a1]).filter
          (fun comp => composition_charge val crystal.site_ratios 0 comp == 0)) := by
  have h0 : 0 < crystal.site_ratios.length := by omega
  have h1 : 1 < crystal.site_ratios.length := by omega
  simp only [possible_compositions, hatom, pc_level2, pc_level3, h0, h1, if_true]
  norm_num
  simp only [foldlM_pure_eq]
  rw [show (pure : List (List String) → Except String (List (List String)))
      = Except.ok from rfl]
  congr 1
  simp only [check_lattice_charges_eq]
  simp only [foldl_acc_append]
  simp [cartesianProduct, filter_flatMap, List.map_flatMap, List.filter_map,
    composition_charge, List.filter_cons, Function.comp]

end SMACT

namespace SMACT

theorem possible_compositions_three (crystal : Lattice) (keys : List String)
    (val : String → Int) (a0 a1 a2 : List String)
    (hatom : atoms_for crystal keys val = Except.ok [a0, a1, a2])
    (hr : 3 ≤ crystal.site_ratios.length) :
    possible_compositions crystal keys val
      = Except.ok ((cartesianProduct [a0, a1, a2]).filter
          (fun comp => composition_charge val crystal.site_ratios 0 comp == 0)) := by
  have h0 : 0 < crystal.site_ratios.length := by omega
  have h1 : 1 < crystal.site_ratios.length := by omega
  have h2 : 2 < crystal.site_ratios.length := by omega
  simp only [possible_compositions, hatom, pc_level2, pc_level3, pc_level4,
    h0, h1, h2, if_true]
  norm_num
  simp only [foldlM_pure_eq]
  rw [show (pure : List (List String) → Except String (List (List String)))
      = Except.ok from rfl]
  congr 1
  simp only [check_lattice_charges_eq]
  simp only [foldl_acc_append]
  simp [cartesianProduct, filter_flatMap, List.map_flatMap, List.filter_map,
    composition_charge, List.filter_cons, Function.comp]

theorem possible_compositions_four (crystal : Lattice) (keys : List String)
    (val : String → Int) (a0 a1 a2 a3 : List String)
    (hatom : atoms_for crystal keys val = Except.ok [a0, a1, a2, a3])
    (hr : 4 ≤ crystal.site_ratios.length) :
    possible_compositions crystal keys val
      = Except.ok ((cartesianProduct [a0, a1, a2, a3]).filter
          (fun comp => composition_charge val crystal.site_ratios 0 comp == 0)) := by
  have h0 : 0 < crystal.site_ratios.length := by omega
  have h1 : 1 < crystal.site_ratios.length := by omega
  have h2 : 2 < crystal.site_ratios.length := by omega
  have h3 : 3 < crystal.site_ratios.length := by omega
  simp only [possible_compositions, hatom, pc_level2, pc_level3, pc_level4, pc_level5,
    h0, h1, h2, h3, if_true]
  norm_num
  simp only [foldlM_pure_eq]
  rw [show (pure : List (List String) → Except String (List (List String)))
      = Except.ok from rfl]
  congr 1
  simp only [check_lattice_charges_eq]
  simp only [foldl_acc_append]
  simp [cartesianProduct, filter_flatMap, List.map_flatMap, List.filter_map,
    composition_charge, List.filter_cons, Function.comp]

end SMACT

namespace SMACT

theorem site_candidate_lists_length (crystal : Lattice) (keys : List String)
    (val : String → Int) :
    (site_candidate_lists crystal keys val).length = crystal.sites.length := by
  simp [site_candidate_lists]

theorem possible_compositions_ok (crystal : Lattice) (keys : List String) (val : String → Int)
    (h1 : 1 ≤ crystal.sites.length) (h4 : crystal.sites.length ≤ 4)
    (hox : crystal.sites.length ≤ crystal.site_oxidations.length)
    (hr : crystal.sites.length ≤ crystal.site_ratios.length) :
    possible_compositions crystal keys val
      = Except.ok ((cartesianProduct (site_candidate_lists crystal keys val)).filter
          (fun comp => composition_charge val crystal.site_ratios 0 comp == 0)) := by
  have hlen := site_candidate_lists_length crystal keys val
  have hatoms := atoms_for_ok crystal keys val hox
  rcases hcand : site_candidate_lists crystal keys val with _ | ⟨a0, _ | ⟨a1, _ | ⟨a2, _ | ⟨a3, _ | ⟨a4, rest⟩⟩⟩⟩⟩
  · rw [hcand] at hlen
    simp at hlen
    omega
  · rw [hcand] at hatoms hlen
    exact possible_compositions_one crystal keys val a0 hatoms
      (by simp at hlen; omega)
  · rw [hcand] at hatoms hlen
    exact possible_compositions_two crystal keys val a0 a1 hatoms
      (by simp at hlen; omega)
  · rw [hcand] at hatoms hlen
    exact possible_compositions_three crystal keys val a0 a1 a2 hatoms
      (by simp at hlen; omega)
  · rw [hcand] at hatoms hlen
    exact possible_compositions_four crystal keys val a0 a1 a2 a3 hatoms
      (by simp at hlen; omega)
  · rw [hcand] at hlen
    simp at hlen
    omega

theorem possible_compositions_short_oxidations (crystal : Lattice) (keys : List String)
    (val : String → Int) (hox : crystal.site_oxidations.length < crystal.sites.length) :
    possible_compositions crystal keys val
      = Except.error "IndexError: list index out of range" := by
  simp only [possible_compositions, atoms_for_error crystal keys val hox]

theorem possible_compositions_short_oxidations_example :
    possible_compositions crystalOxShort ["X"] valOne
      = Except.error "IndexError: list index out of range" := rfl

theorem possible_compositions_short_ratios_example :
    possible_compositions crystalRatioShort ["X"] valOne
      = Except.error "IndexError: list index out of range" := rfl

theorem cartesianProduct_mem_length {α : Type} :
    ∀ {ls : List (List α)} {c : List α}, c ∈ cartesianProduct ls → c.length = ls.length := by
  intro ls
  induction ls with
  | nil =>
    intro c hc
    simp [cartesianProduct] at hc
    simp [hc]
  | cons l ls ih =>
    intro c hc
    simp only [cartesianProduct, List.mem_flatMap, List.mem_map] at hc
    obtain ⟨x, hx, c2, hc2, rfl⟩ := hc
    simp [ih hc2]

end SMACT

namespace SMACT

theorem elementCombinations_sublist {u : List Element} {n : ℕ} {comb : List Element}
    (h : comb ∈ elementCombinations u n) : comb.Sublist u := by
  simp only [elementCombinations, List.mem_flatMap] at h
  obtain ⟨i, _, hcomb⟩ := h
  exact combinations_sublist hcomb

theorem mem_oxidation_states_list {comb : List Element} {t : String × Int × ℚ}
    (h : t ∈ oxidation_states_list comb) :
    ∃ e ∈ comb, t.1 = e.symbol ∧ t.2.1 ∈ e.oxidation_states := by
  simp only [oxidation_states_list, List.mem_flatMap, List.mem_map] at h
  obtain ⟨e, he, ox, hox, rfl⟩ := h
  exact ⟨e, he, rfl, hox⟩

theorem sorted_key_mem_table_keys {u : List Element} {n : ℕ} {comb : List Element}
    {sc : List (String × Int × ℚ)}
    (hcomb : comb ∈ elementCombinations u n)
    (hsc : sc ∈ combinations n (oxidation_states_list comb)) :
    pySorted (sc.map (fun x => x.2.1)) ∈ oxidation_state_combinations u n := by
  have hsub : comb.Sublist u := elementCombinations_sublist hcomb
  have hlen : (sc.map (fun x => x.2.1)).length = n := by
    rw [List.length_map]
    exact combinations_length hsc
  have hmem : ∀ y ∈ sc.map (fun x => x.2.1), y ∈ uniqueOxidationStates u := by
    intro y hy
    rw [List.mem_map] at hy
    obtain ⟨t, ht, rfl⟩ := hy
    have htl : t ∈ oxidation_states_list comb := (combinations_sublist hsc).subset ht
    obtain ⟨e, he, _, hox⟩ := mem_oxidation_states_list htl
    have heu : e ∈ u := hsub.subset he
    rw [uniqueOxidationStates, List.mem_dedup]
    exact List.mem_flatMap.mpr ⟨e, heu, hox⟩
  obtain ⟨c, hcmem, hcperm⟩ :=
    cwr_complete (uniqueOxidationStates u) (sc.map (fun x => x.2.1)) hmem
  rw [oxidation_state_combinations, ← hlen]
  exact List.mem_map.mpr ⟨c, hcmem, pySorted_eq_of_perm hcperm⟩

theorem osl_countP_eq {comb : List Element}
    (hnodup : (comb.map (fun e => e.symbol)).Nodup) :
    ∀ e ∈ comb, (oxidation_states_list comb).countP (fun t => t.1 == e.symbol)
      = e.oxidation_states.length := by
  induction comb with
  | nil => intro e he; simp at he
  | cons a rest ih =>
    intro e he
    simp only [List.map_cons, List.nodup_cons] at hnodup
    have hsplit : oxidation_states_list (a :: rest)
        = (a.oxidation_states.map (fun ox => (a.symbol, ox, a.pauling_eneg)))
          ++ oxidation_states_list rest := by
      simp [oxidation_states_list]
    rw [List.mem_cons] at he
    rcases he with rfl | he
    · have hblock : (e.oxidation_states.map
            (fun ox => (e.symbol, ox, e.pauling_eneg))).countP (fun t => t.1 == e.symbol)
          = e.oxidation_states.length := by
        rw [List.countP_map]
        simp [Function.comp]
      have hrest : (oxidation_states_list rest).countP (fun t => t.1 == e.symbol) = 0 := by
        rw [List.countP_eq_zero]
        intro t ht
        obtain ⟨e2, he2, hsym, _⟩ := mem_oxidation_states_list ht
        simp only [beq_iff_eq]
        intro hEq
        exact hnodup.1 (List.mem_map.mpr ⟨e2, he2, by rw [← hsym, hEq]⟩)
      rw [hsplit, List.countP_append, hblock, hrest]
      omega
    · have hsym_ne : a.symbol ≠ e.symbol := by
        intro hEq
        exact hnodup.1 (List.mem_map.mpr ⟨e, he, hEq.symm⟩)
      have hblock : (a.oxidation_states.map
            (fun ox => (a.symbol, ox, a.pauling_eneg))).countP (fun t => t.1 == e.symbol)
          = 0 := by
        rw [List.countP_map, List.countP_eq_zero]
        intro ox _
        simpa [Function.comp] using hsym_ne
      rw [hsplit, List.countP_append, hblock, ih hnodup.2 e he]
      omega

theorem percent_done_mono {p q cc : ℕ} (h : p ≤ q) :
    percent_done p cc ≤ percent_done q cc := by
  unfold percent_done
  rcases Nat.eq_zero_or_pos cc with hcc | hcc
  · subst hcc; simp
  · have hc : (0 : ℚ) < cc := by exact_mod_cast hcc
    have hpq : (p : ℚ) ≤ (q : ℚ) := by exact_mod_cast h
    apply (div_le_div_iff_of_pos_right hc).mpr
    apply mul_le_mul_of_nonneg_left hpq
    norm_num

theorem percent_done_full {cc : ℕ} (h : 0 < cc) : percent_done cc cc = 100 := by
  unfold percent_done
  have hc : (cc : ℚ) ≠ 0 := by
    have : (0 : ℚ) < cc := by exact_mod_cast h
    exact ne_of_gt this
  field_simp

theorem time_remaining_nonneg {cc p : ℕ} (hp : 1 ≤ p) (hpc : p ≤ cc) {e : ℚ} (he : 0 ≤ e) :
    0 ≤ time_remaining cc e p := by
  unfold time_remaining
  rw [sub_nonneg, ← mul_div_assoc, le_div_iff₀ (by exact_mod_cast hp : (0 : ℚ) < p)]
  have hcast : (p : ℚ) ≤ cc := by exact_mod_cast hpc
  calc e * p ≤ e * cc := mul_le_mul_of_nonneg_left hcast he
    _ = (cc : ℚ) * e := by ring

end SMACT

namespace SMACT

/-- C4 counterexample: with the element subset [H, O] of size 2 and n = 2
(so n does not exceed the subset size), the inner enumeration still produces
an assignment pairing the two different oxidation states +1 and -1 of the
same element H. -/
theorem C4_counterexample :
    [("H", (1 : Int), (2 : ℚ)), ("H", (-1 : Int), (2 : ℚ))]
      ∈ combinations ([elemH, elemO].length) (oxidation_states_list [elemH, elemO]) := by
  decide

/-- C4 (amended): over a subset with distinct symbols, each element
contributes exactly as many tuples as it has oxidation states to the inner
tuple list (hence at most that many), and every n-sized assignment is a
sub-selection of that tuple list, so no (symbol, state, electronegativity)
tuple is used twice when the tuple list has no duplicates; co-occurrence of
two states of one element is not excluded for any n. -/
theorem C4_element_contribution (comb : List Element) (n : ℕ)
    (hnodup : (comb.map (fun e => e.symbol)).Nodup) :
    (∀ e ∈ comb, (oxidation_states_list comb).countP (fun t => t.1 == e.symbol)
        = e.oxidation_states.length)
      ∧ ∀ sc ∈ combinations n (oxidation_states_list comb),
          sc.Sublist (oxidation_states_list comb)
            ∧ ((oxidation_states_list comb).Nodup → sc.Nodup) := by
  refine ⟨osl_countP_eq hnodup, ?_⟩
  intro sc hsc
  exact ⟨combinations_sublist hsc,
    fun hnd => List.Nodup.sublist (combinations_sublist hsc) hnd⟩

/-- Witness for C4 at the subset [H, O] with n = 2. -/
theorem C4_witness :
    (([elemH, elemO].map (fun e => e.symbol)).Nodup)
      ∧ ((∀ e ∈ [elemH, elemO],
            (oxidation_states_list [elemH, elemO]).countP (fun t => t.1 == e.symbol)
              = e.oxidation_states.length)
        ∧ ∀ sc ∈ combinations 2 (oxidation_states_list [elemH, elemO]),
            sc.Sublist (oxidation_states_list [elemH, elemO])
              ∧ ((oxidation_states_list [elemH, elemO]).Nodup → sc.Nodup)) :=
  ⟨by decide, C4_element_contribution [elemH, elemO] 2 (by decide)⟩

/-- C5: every sorted oxidation-state key that can arise from an n-sized
assignment over any element combination of the round is already among the
sorted combination keys the driver builds for that n before counting starts,
so no lookup during counting can miss a key. -/
theorem C5_table_covers_keys (element_list : List Element) (n : ℕ)
    (comb : List Element) (sc : List (String × Int × ℚ))
    (hcomb : comb ∈ elementCombinations element_list n)
    (hsc : sc ∈ combinations n (oxidation_states_list comb)) :
    pySorted (sc.map (fun x => x.2.1)) ∈ oxidation_state_combinations element_list n :=
  sorted_key_mem_table_keys hcomb hsc

/-- Witness for C5 at the two-element universe, n = 2. -/
theorem C5_witness :
    ([elemH, elemO] ∈ elementCombinations [elemH, elemO] 2)
      ∧ ([("H", (1 : Int), (2 : ℚ)), ("O", (-2 : Int), (3 : ℚ))]
          ∈ combinations 2 (oxidation_states_list [elemH, elemO]))
      ∧ pySorted ([("H", (1 : Int), (2 : ℚ)),
            ("O", (-2 : Int), (3 : ℚ))].map (fun x => x.2.1))
          ∈ oxidation_state_combinations [elemH, elemO] 2 :=
  ⟨by decide, by decide,
    C5_table_covers_keys [elemH, elemO] 2 [elemH, elemO]
      [("H", (1 : Int), (2 : ℚ)), ("O", (-2 : Int), (3 : ℚ))]
      (by decide) (by decide)⟩

/-- C6: across the batches of a per-n round that completes normally, the
reported progress percentages are monotonically non-decreasing and the final
report is exactly 100 percent, and the estimated remaining time is
non-negative at every report for every non-negative elapsed time. -/
theorem C6_progress_reporting
    (pauling_test : List String → List Int → List ℚ → Bool)
    (table : List Int → ℕ) (element_list : List Element)
    (n interval fuel : ℕ) (s2 : LoopState)
    (h : countingRound pauling_test table element_list n interval fuel
      = some (Except.ok s2)) :
    List.Chain' (· ≤ ·)
        (s2.reports.map (fun p => percent_done p (combination_count element_list n)))
      ∧ (0 < combination_count element_list n →
          (s2.reports.map
            (fun p => percent_done p (combination_count element_list n))).getLast?
            = some 100)
      ∧ (∀ p ∈ s2.reports, ∀ time_elapsed : ℚ, 0 ≤ time_elapsed →
          0 ≤ time_remaining (combination_count element_list n) time_elapsed p) := by
  simp only [countingRound] at h
  obtain ⟨t, hrep, hchain, hbound, hlast⟩ := runLoop_reports (by simp) h
  have hptr := runLoop_ptr (by simp) h
  simp only [List.nil_append] at hrep
  rw [combination_count_eq_length]
  refine ⟨?_, ?_, ?_⟩
  · rw [hrep, List.chain'_map]
    exact hchain.tail.imp (fun a b hab => percent_done_mono hab)
  · intro hpos
    rw [hrep, List.getLast?_map]
    rcases t with _ | ⟨p0, t2⟩
    · simp at hlast
      omega
    · rw [List.getLast?_cons_cons] at hlast
      rw [hlast, hptr]
      simp [percent_done_full hpos]
  · intro p hp time_elapsed he
    rw [hrep] at hp
    obtain ⟨hp1, hp2⟩ := hbound p hp
    exact time_remaining_nonneg hp1 hp2 he

/-- Witness for C6 at the two-element universe, n = 2, one report. -/
theorem C6_witness :
    (countingRound ptAll tabOne [elemH, elemO] 2 1 1
        = some (Except.ok { data_pointer := 1, count := 3, reports := [1] }))
      ∧ (List.Chain' (· ≤ ·)
            (([1] : List ℕ).map
              (fun p => percent_done p (combination_count [elemH, elemO] 2)))
          ∧ (0 < combination_count [elemH, elemO] 2 →
              (([1] : List ℕ).map
                (fun p => percent_done p (combination_count [elemH, elemO] 2))).getLast?
                = some 100)
          ∧ (∀ p ∈ ([1] : List ℕ), ∀ time_elapsed : ℚ, 0 ≤ time_elapsed →
              0 ≤ time_remaining (combination_count [elemH, elemO] 2) time_elapsed p)) :=
  ⟨rfl, C6_progress_reporting ptAll tabOne [elemH, elemO] 2 1 1
    { data_pointer := 1, count := 3, reports := [1] } rfl⟩

end SMACT

namespace SMACT

/-- C1: for every filter, table, universe, report target and value of n, when
the batched counting round completes normally, the final count equals the sum,
over every element combination in the enumerated sequence and over every
n-sized combination of (symbol, oxidation state, electronegativity) tuples
drawn from it, of the multiplicity-table entry keyed by the sorted tuple of
the oxidation states, where an assignment contributes only when the
pauling_test filter accepts it. -/
theorem C1_final_count_eq_filtered_sum
    (pauling_test : List String → List Int → List ℚ → Bool)
    (table : List Int → ℕ) (element_list : List Element)
    (n interval fuel : ℕ) (s2 : LoopState)
    (h : countingRound pauling_test table element_list n interval fuel
      = some (Except.ok s2)) :
    s2.count =
      ((elementCombinations element_list n).map (fun comb =>
        (((combinations n (oxidation_states_list comb)).filter (fun sc =>
            pauling_test (sc.map (fun x => x.1)) (sc.map (fun x => x.2.1))
              (sc.map (fun x => x.2.2)))).map
          (fun sc => table (pySorted (sc.map (fun x => x.2.1))))).sum)).sum := by
  simp only [countingRound] at h
  have hc := runLoop_count h
  simp only [List.drop_zero, Nat.zero_add] at hc
  rw [hc]
  simp only [count_element_combination_eq]

/-- Witness for C1 at a two-element universe, n = 2, one report per round. -/
theorem C1_witness :
    (countingRound ptAll tabOne [elemH, elemO] 2 1 1
        = some (Except.ok { data_pointer := 1, count := 3, reports := [1] }))
      ∧ ({ data_pointer := 1, count := 3, reports := [1] } : LoopState).count
        = ((elementCombinations [elemH, elemO] 2).map (fun comb =>
            (((combinations 2 (oxidation_states_list comb)).filter (fun sc =>
                ptAll (sc.map (fun x => x.1)) (sc.map (fun x => x.2.1))
                  (sc.map (fun x => x.2.2)))).map
              (fun sc => tabOne (pySorted (sc.map (fun x => x.2.1))))).sum)).sum :=
  ⟨rfl, C1_final_count_eq_filtered_sum ptAll tabOne [elemH, elemO] 2 1 1
    { data_pointer := 1, count := 3, reports := [1] } rfl⟩

/-- C2: for every delivery schedule that permutes each dispatched batch
(covering every worker count and dispatch chunk size), the multiprocessing
path of the per-n round returns exactly what the strictly sequential fallback
returns, holding all other configuration fixed. -/
theorem C2_parallel_eq_serial
    (sched : ℕ → ℕ → ℕ → List ℕ → List ℕ)
    (hsched : ∀ workers chunk k l, (sched workers chunk k l).Perm l)
    (mp_processes mp_chunk_size : ℕ)
    (pauling_test : List String → List Int → List ℚ → Bool)
    (table : List Int → ℕ) (element_list : List Element)
    (n interval fuel : ℕ) :
    countingRoundPar (sched mp_processes mp_chunk_size) pauling_test table
        element_list n interval fuel
      = countingRound pauling_test table element_list n interval fuel := by
  simp only [countingRoundPar, countingRound]
  exact runLoopPar_eq_runLoop (hsched mp_processes mp_chunk_size) fuel 0 _

/-- Witness for C2 with the reversed delivery schedule, 4 workers, chunk 10. -/
theorem C2_witness :
    (∀ workers chunk k l, (schedRev workers chunk k l).Perm l)
      ∧ countingRoundPar (schedRev 4 10) ptAll tabOne [elemH, elemO] 2 1 1
        = countingRound ptAll tabOne [elemH, elemO] 2 1 1 :=
  ⟨fun _ _ _ l => l.reverse_perm,
    C2_parallel_eq_serial schedRev (fun _ _ _ l => l.reverse_perm) 4 10 ptAll tabOne
      [elemH, elemO] 2 1 1⟩

/-- C3: for every element universe, every n and every batch size, the batched
loop on termination reports the same total as a single unbatched pass over the
full enumerated sequence. -/
theorem C3_batched_eq_unbatched
    (pauling_test : List String → List Int → List ℚ → Bool)
    (table : List Int → ℕ) (element_list : List Element)
    (n batch_size fuel : ℕ) (s2 : LoopState)
    (h : runLoop (fun comb => count_element_combination pauling_test table comb n)
        (elementCombinations element_list n) batch_size fuel
        { data_pointer := 0, count := 0, reports := [] } = some (Except.ok s2)) :
    s2.count = specUnbatchedTotal pauling_test table element_list n := by
  have hc := runLoop_count h
  simpa [specUnbatchedTotal] using hc

/-- Witness for C3 at a two-element universe with batch size 1. -/
theorem C3_witness :
    (runLoop (fun comb => count_element_combination ptAll tabOne comb 2)
        (elementCombinations [elemH, elemO] 2) 1 1
        { data_pointer := 0, count := 0, reports := [] }
      = some (Except.ok { data_pointer := 1, count := 3, reports := [1] }))
      ∧ ({ data_pointer := 1, count := 3, reports := [1] } : LoopState).count
        = specUnbatchedTotal ptAll tabOne [elemH, elemO] 2 :=
  ⟨rfl, C3_batched_eq_unbatched ptAll tabOne [elemH, elemO] 2 1 1
    { data_pointer := 1, count := 3, reports := [1] } rfl⟩

/-- C7: compound_electroneg succeeds exactly for the selectors Mulliken and
Pauling; for any other selector it returns the unrecognised-type error, and
does so before any electronegativity aggregation is performed (the result does
not depend on the aggregation function). -/
theorem C7_selector_validation (get_mulliken get_pauling : String → ℚ)
    (aggregate aggregate2 : List ℚ → List ℚ → ℚ)
    (elements : List String) (stoichs : List ℚ) (source : String) :
    ((∃ v, compound_electroneg get_mulliken get_pauling aggregate elements stoichs source
        = Except.ok v) ↔ (source = "Mulliken" ∨ source = "Pauling"))
      ∧ (source ≠ "Mulliken" → source ≠ "Pauling" →
          compound_electroneg get_mulliken get_pauling aggregate elements stoichs source
              = Except.error ("Electronegativity type " ++ source ++ " is not recognised")
            ∧ compound_electroneg get_mulliken get_pauling aggregate elements stoichs source
              = compound_electroneg get_mulliken get_pauling aggregate2 elements
                  stoichs source) := by
  unfold compound_electroneg
  by_cases hm : source = "Mulliken"
  · simp [hm]
  · by_cases hp : source = "Pauling"
    · simp [hm, hp]
    · simp [hm, hp]

/-- Witness for C7 at the unrecognised selector Foo. -/
theorem C7_witness :
    ((∃ v, compound_electroneg (fun _ => 0) (fun _ => 0) (fun _ _ => 0) ["Cu"] [1] "Foo"
        = Except.ok v) ↔ ("Foo" = "Mulliken" ∨ "Foo" = "Pauling"))
      ∧ ("Foo" ≠ "Mulliken" → "Foo" ≠ "Pauling" →
          compound_electroneg (fun _ => 0) (fun _ => 0) (fun _ _ => 0) ["Cu"] [1] "Foo"
              = Except.error ("Electronegativity type " ++ "Foo" ++ " is not recognised")
            ∧ compound_electroneg (fun _ => 0) (fun _ => 0) (fun _ _ => 0) ["Cu"] [1] "Foo"
              = compound_electroneg (fun _ => 0) (fun _ => 0) (fun _ _ => 1) ["Cu"] [1] "Foo") :=
  C7_selector_validation (fun _ => 0) (fun _ => 0) (fun _ _ => 0) (fun _ _ => 1) ["Cu"] [1] "Foo"

/-- C8 counterexample: a five-site crystal with no charge-neutral candidate
assignment makes possible_compositions raise the NameError of the undefined
crystal_site_ratios instead of returning an empty list. -/
theorem C8_counterexample :
    possible_compositions crystalFive ["X"] valOne
        = Except.error "NameError: global name crystal_site_ratios is not defined"
      ∧ ∀ comp ∈ cartesianProduct (site_candidate_lists crystalFive ["X"] valOne),
          composition_charge valOne crystalFive.site_ratios 0 comp ≠ 0 :=
  ⟨rfl, by decide⟩

/-- C8 (amended): for crystals with 1 to 4 sites whose site_oxidations and
site_ratios lists cover every site, possible_compositions never raises; in
particular when no candidate site assignment is charge-neutral it returns the
empty list, which means no combination found rather than an error.  (With 5
or more sites the dead fifth-site branch of the source can raise a NameError,
and per-site data lists shorter than the site list raise IndexError, so the
guarantee is restricted to well-formed crystals of at most 4 sites.) -/
theorem C8_empty_means_no_combination (crystal : Lattice) (keys : List String)
    (val : String → Int) (h1 : 1 ≤ crystal.sites.length) (h4 : crystal.sites.length ≤ 4)
    (hox : crystal.sites.length ≤ crystal.site_oxidations.length)
    (hr : crystal.sites.length ≤ crystal.site_ratios.length)
    (hnone : ∀ comp ∈ cartesianProduct (site_candidate_lists crystal keys val),
        composition_charge val crystal.site_ratios 0 comp ≠ 0) :
    possible_compositions crystal keys val = Except.ok [] := by
  rw [possible_compositions_ok crystal keys val h1 h4 hox hr]
  congr 1
  rw [List.filter_eq_nil_iff]
  intro comp hcomp
  simpa using hnone comp hcomp

/-- Witness for C8 at a one-site crystal with no neutral candidate. -/
theorem C8_witness :
    (1 ≤ crystalOne.sites.length) ∧ (crystalOne.sites.length ≤ 4)
      ∧ (crystalOne.sites.length ≤ crystalOne.site_oxidations.length)
      ∧ (crystalOne.sites.length ≤ crystalOne.site_ratios.length)
      ∧ (∀ comp ∈ cartesianProduct (site_candidate_lists crystalOne ["A"] valOne),
          composition_charge valOne crystalOne.site_ratios 0 comp ≠ 0)
      ∧ possible_compositions crystalOne ["A"] valOne = Except.ok [] :=
  ⟨by decide, by decide, by decide, by decide, by decide,
    C8_empty_means_no_combination crystalOne ["A"] valOne (by decide) (by decide)
      (by decide) (by decide) (by decide)⟩

/-- C9 counterexample: with two elements (one combination) and
count_progress_interval 2, the combination count is positive and below the
interval, yet the loop does not run forever: the first pass processes zero
items and the first progress report divides by the unadvanced data_pointer,
aborting the round with a ZeroDivisionError after one iteration. -/
theorem C9_counterexample :
    countingRound ptAll tabOne [elemH, elemO] 2 2 1
      = some (Except.error "ZeroDivisionError: float division by zero") := rfl

/-- C9 (amended): the per-n while-loop terminates normally whenever the
element-combination count is at least the report interval (batch_size at
least 1); when the count is positive but below the interval, batch_size is 0,
every pass would process 0 items leaving data_pointer at 0, and the first
progress report divides by data_pointer = 0, so the run aborts with a
ZeroDivisionError at the first pass instead of looping forever. -/
theorem C9_loop_termination
    (pauling_test : List String → List Int → List ℚ → Bool)
    (table : List Int → ℕ) (element_list : List Element)
    (n interval : ℕ) (hint : 0 < interval) :
    (interval ≤ combination_count element_list n →
        ∃ fuel s2, countingRound pauling_test table element_list n interval fuel
          = some (Except.ok s2))
      ∧ (0 < combination_count element_list n →
          combination_count element_list n < interval →
          combination_count element_list n / interval = 0
            ∧ (∀ dp : ℕ, min (combination_count element_list n / interval)
                (combination_count element_list n - dp) = 0)
            ∧ ∀ fuel : ℕ, countingRound pauling_test table element_list n interval (fuel + 1)
                = some (Except.error "ZeroDivisionError: float division by zero")) := by
  constructor
  · intro hge
    have hbs : 1 ≤ combination_count element_list n / interval :=
      (Nat.one_le_div_iff hint).mpr hge
    obtain ⟨s2, hs2⟩ := @runLoop_terminates
      (fun element_combination =>
        count_element_combination pauling_test table element_combination n)
      (elementCombinations element_list n)
      (combination_count element_list n / interval) hbs
      (elementCombinations element_list n).length
      { data_pointer := 0, count := 0, reports := [] } (by simp)
    exact ⟨(elementCombinations element_list n).length, s2, hs2⟩
  · intro hpos hlt
    have hz : combination_count element_list n / interval = 0 := Nat.div_eq_of_lt hlt
    refine ⟨hz, fun dp => by simp [hz], fun fuel => ?_⟩
    simp only [countingRound, hz]
    exact runLoop_stuck (by rw [← combination_count_eq_length]; exact hpos) 0 [] fuel

/-- Witness for C9 at the two-element universe with interval 2. -/
theorem C9_witness :
    (0 < 2)
      ∧ ((2 ≤ combination_count [elemH, elemO] 2 →
            ∃ fuel s2, countingRound ptAll tabOne [elemH, elemO] 2 2 fuel
              = some (Except.ok s2))
        ∧ (0 < combination_count [elemH, elemO] 2 →
            combination_count [elemH, elemO] 2 < 2 →
            combination_count [elemH, elemO] 2 / 2 = 0
              ∧ (∀ dp : ℕ, min (combination_count [elemH, elemO] 2 / 2)
                  (combination_count [elemH, elemO] 2 - dp) = 0)
              ∧ ∀ fuel : ℕ, countingRound ptAll tabOne [elemH, elemO] 2 2 (fuel + 1)
                  = some (Except.error "ZeroDivisionError: float division by zero"))) :=
  ⟨by decide, C9_loop_termination ptAll tabOne [elemH, elemO] 2 2 (by decide)⟩

/-- C10 counterexample: with a one-site crystal allowing oxidation +1 at the
site and a dictionary whose only element has oxidation 0 and site ratio 1,
the one-entry-per-site list [A] has weighted charge 0, yet
possible_compositions returns the empty list, because candidates are first
restricted to elements whose oxidation matches the site's allowed list. -/
theorem C10_counterexample :
    possible_compositions crystalOne ["A"] valZero = Except.ok []
      ∧ composition_charge valZero crystalOne.site_ratios 0 ["A"] = 0
      ∧ ["A"].length = crystalOne.sites.length :=
  ⟨rfl, by decide, by decide⟩

/-- C10 (amended): for every crystal with 1 to 4 sites whose site_oxidations
and site_ratios lists cover every site, possible_compositions returns exactly
those site-ordered lists, one element per site drawn from the candidate set
of that site (elements whose oxidation state appears in the allowed oxidation
list of the site), whose sum over sites of (oxidation state times site ratio)
is zero; every returned list has one entry per site. -/
theorem C10_composition_characterization (crystal : Lattice) (keys : List String)
    (val : String → Int) (h1 : 1 ≤ crystal.sites.length) (h4 : crystal.sites.length ≤ 4)
    (hox : crystal.sites.length ≤ crystal.site_oxidations.length)
    (hr : crystal.sites.length ≤ crystal.site_ratios.length) :
    possible_compositions crystal keys val
        = Except.ok ((cartesianProduct (site_candidate_lists crystal keys val)).filter
            (fun comp => composition_charge val crystal.site_ratios 0 comp == 0))
      ∧ ∀ comp ∈ (cartesianProduct (site_candidate_lists crystal keys val)).filter
            (fun comp => composition_charge val crystal.site_ratios 0 comp == 0),
          comp.length = crystal.sites.length := by
  refine ⟨possible_compositions_ok crystal keys val h1 h4 hox hr, ?_⟩
  intro comp hcomp
  have hlen := cartesianProduct_mem_length (List.mem_of_mem_filter hcomp)
  rw [hlen, site_candidate_lists_length]

/-- Witness for C10 at a two-site NaCl-like crystal. -/
theorem C10_witness :
    (1 ≤ crystalTwo.sites.length) ∧ (crystalTwo.sites.length ≤ 4)
      ∧ (crystalTwo.sites.length ≤ crystalTwo.site_oxidations.length)
      ∧ (crystalTwo.sites.length ≤ crystalTwo.site_ratios.length)
      ∧ (possible_compositions crystalTwo ["Na", "Cl"] valNaCl
          = Except.ok ((cartesianProduct
                (site_candidate_lists crystalTwo ["Na", "Cl"] valNaCl)).filter
              (fun comp => composition_charge valNaCl crystalTwo.site_ratios 0 comp == 0))
        ∧ ∀ comp ∈ (cartesianProduct
                (site_candidate_lists crystalTwo ["Na", "Cl"] valNaCl)).filter
              (fun comp => composition_charge valNaCl crystalTwo.site_ratios 0 comp == 0),
            comp.length = crystalTwo.sites.length) :=
  ⟨by decide, by decide, by decide, by decide,
    C10_composition_characterization crystalTwo ["Na", "Cl"] valNaCl (by decide) (by decide)
      (by decide) (by decide)⟩

end SMACT
